import Mathlib

/-!
Verification development for the MuseumAssistant stand pipeline.

Shallow embedding of:
  - src/stand/src/main.py                        (Pipeline: loop, analyze, start/stop, send_data)
  - src/stand/src/distance_detector/detector.py  (InteractiveStandDetector: speed analysis)
  - src/stand/src/demographics_detector/detector.py (DemographicsEstimator: age-bucket map)

Modelling choices, stated once:
  - Python floats are modelled as rationals (ℚ).
  - Python strings are modelled as `List Char` where character-level parsing
    matters (the age-range strings), and as `String` elsewhere.
  - The candidate scan in the source compares `np.sqrt` of a sum of squares;
    since the square root is strictly monotone on nonnegative numbers, the
    comparison is embedded as a comparison of squared distances.
  - `float("inf")` is embedded as `Option ℚ` with `none` standing for
    the positive infinity that every finite value is below.
  - The external neural-network capabilities (pose depth, face detection,
    age/gender inference), the clock, the camera read flag and the network
    outcome are inputs of each loop iteration, as the spec treats them as
    opaque collaborators.
-/

namespace MuseumAssistant

/-! ## Demographics estimator: `DemographicsEstimator._map_age_bucket` -/

/-- Splitting a Python string on the character `-`:
embedding of `age_str.split("-")` at character level. -/
def pySplitDash : List Char → List (List Char)
  | [] => [[]]
  | c :: rest =>
    let r := pySplitDash rest
    if c = '-' then [] :: r
    else
      match r with
      | [] => [[c]]
      | g :: gs => (c :: g) :: gs

/-- Embedding of `"-" in age_str` for a single-character separator. -/
def pyContainsDash (s : List Char) : Bool :=
  s.any (fun c => c = '-')

/-- Embedding of `int(...)` on a nonnegative decimal digit string, the only
inputs the source ever feeds it (the entries of `AGE_LIST`). -/
def parseDigits (s : List Char) : Nat :=
  s.foldl (fun n c => n * 10 + (c.toNat - 48)) 0

/-- Embedding of `DemographicsEstimator._map_age_bucket`
(demographics_detector/detector.py, lines 98-120): take the lower bound of
the age-range string (60 when the string has no dash) and run it through
the if/elif chain of the source. -/
def map_age_bucket (age_str : List Char) : String :=
  let lo : Nat :=
    if pyContainsDash age_str then parseDigits ((pySplitDash age_str).headD [])
    else 60
  if lo < 18 then "child"
  else if 18 ≤ lo ∧ lo < 30 then "young"
  else if 40 ≤ lo ∧ lo ≤ 60 then "adult"
  else "senior"

/-! ## Candidate selector: the face scan of `Pipeline._analyze_frame` -/

/-- A detected face box with confidence, as produced by `_detect_faces`:
`(x1, y1, x2, y2, conf)`. -/
structure Face where
  x1 : ℚ
  y1 : ℚ
  x2 : ℚ
  y2 : ℚ
  conf : ℚ
deriving DecidableEq

/-- Squared Euclidean distance from the center of a face box to the nose
reference point.  The source compares `np.sqrt` of exactly this quantity;
comparing squares is equivalent because the root is strictly monotone. -/
def distSq (nose : ℚ × ℚ) (f : Face) : ℚ :=
  let x0 := (f.x1 + f.x2) / 2
  let y0 := (f.y1 + f.y2) / 2
  (x0 - nose.1) ^ 2 + (y0 - nose.2) ^ 2

/-- Running state of the scan loop in `Pipeline._analyze_frame`
(main.py, lines 151-164): current best face, running best squared distance
(`none` is the initial `float("inf")`), running best confidence. -/
structure ScanState where
  dist_face : Option Face
  min_dist : Option ℚ
  max_conf : ℚ
deriving DecidableEq

/-- The scan state before the loop: `dist_face = None`,
`min_dist = float("inf")`, `max_conf = 0`. -/
def initScan : ScanState := ⟨none, none, 0⟩

/-- The conjunctive acceptance test of the scan:
`dist < min_dist and conf > max_conf`. -/
def beats (nose : ℚ × ℚ) (st : ScanState) (f : Face) : Bool :=
  (match st.min_dist with
   | none => true
   | some m => decide (distSq nose f < m)) && decide (st.max_conf < f.conf)

/-- One iteration of the scan loop: on acceptance the face becomes the best
and both running thresholds are updated; otherwise nothing changes. -/
def scanStep (nose : ℚ × ℚ) (st : ScanState) (f : Face) : ScanState :=
  if beats nose st f then ⟨some f, some (distSq nose f), f.conf⟩ else st

/-- The whole scan over the detected faces, in list order. -/
def scanFaces (nose : ℚ × ℚ) (faces : List Face) : ScanState :=
  faces.foldl (scanStep nose) initScan

/-- Embedding of the selection performed by `Pipeline._analyze_frame`
(main.py, lines 149-167): the face held by the scan state after the loop,
`none` exactly when the source would hit `if not dist_face: return None`. -/
def selectFace (nose : ℚ × ℚ) (faces : List Face) : Option Face :=
  (scanFaces nose faces).dist_face

/-- A face at distance 50 from the origin reference with confidence 0.95. -/
def faceFar95 : Face := ⟨40, -10, 60, 10, 19/20⟩

/-- A face at distance 10 from the origin reference with confidence 0.9. -/
def faceNear90 : Face := ⟨0, -10, 20, 10, 9/10⟩

/-- A face at distance 50 from the origin reference with confidence 0.9. -/
def faceFar90 : Face := ⟨40, -10, 60, 10, 9/10⟩

/-- A face at distance 10 from the origin reference with confidence 0.95. -/
def faceNear95 : Face := ⟨0, -10, 20, 10, 19/20⟩

/-! ## Presence tracker: `InteractiveStandDetector._analyze_speed` -/

/-- The slowdown-tracking state of `InteractiveStandDetector`
(distance_detector/detector.py): the displacement window (a deque of
maximal length 10, oldest first), the reference center, and the flag. -/
structure TrackerState where
  speed_history : List ℚ
  last_center : Option (ℚ × ℚ)
  slowing_down : Bool
deriving DecidableEq

/-- The tracker state set up in `InteractiveStandDetector.__init__`. -/
def initTracker : TrackerState := ⟨[], none, false⟩

/-- Appending to a `deque(maxlen=10)`: the oldest entry is dropped when the
window already holds 10 samples. -/
def dequeAppend10 (h : List ℚ) (x : ℚ) : List ℚ :=
  let h2 := h ++ [x]
  if 10 < h2.length then h2.drop (h2.length - 10) else h2

/-- Embedding of `np.mean` on a list of rationals. -/
def npMean (l : List ℚ) : ℚ :=
  l.sum / (l.length : ℚ)

/-- Embedding of `InteractiveStandDetector._analyze_speed`
(distance_detector/detector.py, lines 58-92).  Faithful details: the
reference center is written back only inside the `len >= 10` branch, the
flag is left untouched when the window is not yet full, and the mean is
taken over the last five window entries. -/
def analyze_speed (st : TrackerState) (center : ℚ × ℚ) : TrackerState × Bool :=
  match st.last_center with
  | none => ({ st with last_center := some center }, false)
  | some lc =>
    let dx := |center.1 - lc.1|
    let hist := dequeAppend10 st.speed_history dx
    if 10 ≤ hist.length then
      let avg := npMean (hist.drop (hist.length - 5))
      if avg < 4/5 then
        (⟨hist, some center, true⟩, true)
      else
        (⟨hist, some center, false⟩, false)
    else
      ({ st with speed_history := hist }, false)

/-- Running the tracker over a whole sequence of centers, collecting each
update's return value. -/
def trackerRun : TrackerState → List (ℚ × ℚ) → TrackerState × List Bool
  | st, [] => (st, [])
  | st, c :: cs =>
    let p := analyze_speed st c
    let q := trackerRun p.1 cs
    (q.1, p.2 :: q.2)

/-- The per-update return values of the tracker over a fresh detector. -/
def trackerResults (cs : List (ℚ × ℚ)) : List Bool :=
  (trackerRun initTracker cs).2

/-- The last `k` entries of a list (the whole list when it is shorter). -/
def lastN (k : Nat) (l : List ℚ) : List ℚ :=
  l.drop (l.length - k)

/-- Reference characterization of the displacement sample produced by the
update of 0-based index `i ≥ 1`: the horizontal distance from center `i` to
the reference center, which stays at center 0 until the window fills at
update index 10 and tracks the previous center from index 11 on. -/
def specSample (cs : List (ℚ × ℚ)) (i : Nat) : ℚ :=
  |(cs.getD i (0, 0)).1 - (cs.getD (if i ≤ 10 then 0 else i - 1) (0, 0)).1|

/-- The displacement samples produced by the first `n` updates, in order:
one sample per update index in `[1, n-1]`. -/
def sampleList (cs : List (ℚ × ℚ)) (n : Nat) : List ℚ :=
  ((List.range n).drop 1).map (specSample cs)

/-- Mean of the five most recent displacement samples as of update index
`i` (0-based, `i ≥ 10`): the samples of updates `i-4` through `i`. -/
def recent5Mean (cs : List (ℚ × ℚ)) (i : Nat) : ℚ :=
  npMean (((List.range 5).map (fun k => specSample cs (i - 4 + k))))

/-- Twelve centers moving right by 0.1 pixel per frame. -/
def driftCenters : List (ℚ × ℚ) :=
  [(0, 0), (1/10, 0), (2/10, 0), (3/10, 0), (4/10, 0), (5/10, 0),
   (6/10, 0), (7/10, 0), (8/10, 0), (9/10, 0), (1, 0), (11/10, 0)]

/-! ## Session state machine and loop: `Pipeline` of main.py -/

/-- The demographics dictionary returned by `Pipeline._analyze_frame`
(main.py, line 176): gender, mapped bucket, raw range, numeric age. -/
structure Demo where
  gender : String
  group : String
  age_group : String
  age : ℚ
deriving DecidableEq

/-- The payload assembled at deactivation (main.py, lines 115-120):
the cached demographics dictionary extended with the stand name, the
activation timestamp and the elapsed time in minutes.  The demographics
part is `Option` because the source copies `self.human_info` verbatim. -/
structure SessionRecord where
  demo : Option Demo
  name : String
  datetime : Option ℚ
  time_elapsed : ℚ
deriving DecidableEq

/-- `self.activation_distance = 1.5` (main.py, line 81). -/
def activation_distance : ℚ := 3/2

/-- The session-relevant fields of `Pipeline` as set in `__init__`
(main.py, lines 82-90). -/
structure PipelineState where
  activated : Bool
  human_info : Option Demo
  started_at : ℚ
  finished_at : ℚ
  time_activated : Option ℚ
deriving DecidableEq

/-- The pipeline session state right after construction. -/
def initPipeline : PipelineState := ⟨false, none, 0, 0, none⟩

/-- Equality of `Except` outcomes is decidable componentwise. -/
instance exceptDecEq {ε α : Type} [DecidableEq ε] [DecidableEq α] :
    DecidableEq (Except ε α) := fun a b =>
  match a, b with
  | .ok x, .ok y =>
    if h : x = y then .isTrue (by rw [h])
    else .isFalse (by intro hh; cases hh; exact h rfl)
  | .ok _, .error _ => .isFalse (by intro hh; cases hh)
  | .error _, .ok _ => .isFalse (by intro hh; cases hh)
  | .error x, .error y =>
    if h : x = y then .isTrue (by rw [h])
    else .isFalse (by intro hh; cases hh; exact h rfl)

/-- The per-iteration inputs of the loop body, collecting everything the
source obtains from its external collaborators in one iteration:
the camera read flag `ret`, the presence sample (the distance component of
`get_person_depth`, `none` when no person is found), the demographics
result `_analyze_frame` would produce for this frame, the clock value, and
whether the outbound POST of this iteration would return or raise. -/
structure FrameInput where
  captureOk : Bool
  presence : Option ℚ
  demo : Option Demo
  now : ℚ
  net : Except String Nat
deriving DecidableEq

/-- Embedding of `send_data` (main.py, lines 22-49): the request outcome is
passed in as an `Except` value; a raising call is caught and turned into
`None`, a returning call's response is handed back. -/
def send_data : Except String Nat → Option Nat
  | .ok resp => some resp
  | .error _ => none

/-- One iteration of the state-machine part of `Pipeline._loop`
(main.py, lines 106-122), after a successful frame read: the transition on
the session state together with the session payload emitted at
deactivation, if any. -/
def pipelineStep (name : String) (st : PipelineState) (fi : FrameInput) :
    PipelineState × Option SessionRecord :=
  match fi.presence with
  | none => (st, none)
  | some d =>
    if d ≤ activation_distance ∧ st.activated = false then
      match fi.demo with
      | some info =>
        ({ activated := true, human_info := some info, started_at := fi.now,
           finished_at := st.finished_at, time_activated := some fi.now }, none)
      | none => ({ st with human_info := none }, none)
    else if activation_distance < d ∧ st.activated = true then
      ({ st with activated := false, finished_at := fi.now },
       some ⟨st.human_info, name, st.time_activated, (fi.now - st.started_at) / 60⟩)
    else (st, none)

/-- Running the state machine over a sequence of frames, collecting the
emitted session payloads in order. -/
def runPipeline (name : String) : PipelineState → List FrameInput →
    PipelineState × List SessionRecord
  | st, [] => (st, [])
  | st, fi :: rest =>
    let p := pipelineStep name st fi
    let q := runPipeline name p.1 rest
    (q.1, p.2.toList ++ q.2)

/-- The observable session events of one transition: an activation when the
flag rises, a deactivation when it falls. -/
inductive SessEvent where
  | act
  | deact
deriving DecidableEq

/-- The activation/deactivation event trace of a run. -/
def runEvents (name : String) : PipelineState → List FrameInput → List SessEvent
  | _, [] => []
  | st, fi :: rest =>
    let st2 := (pipelineStep name st fi).1
    let e : List SessEvent :=
      if st.activated = false ∧ st2.activated = true then [.act]
      else if st.activated = true ∧ st2.activated = false then [.deact]
      else []
    e ++ runEvents name st2 rest

/-- An event trace alternates correctly from a given activity flag: an
activation is only ever seen while inactive, a deactivation only while
active.  In particular no two activations happen without an intervening
deactivation. -/
def alternatesFrom : Bool → List SessEvent → Bool
  | _, [] => true
  | false, .act :: rest => alternatesFrom true rest
  | true, .deact :: rest => alternatesFrom false rest
  | _, _ => false

/-- One full iteration of `Pipeline._loop` (main.py, lines 100-122): a
failed frame read raises `RuntimeError` out of the loop, which nothing
catches; otherwise the state machine runs and an emitted payload is sent
with `send_data`, whose result is discarded by the source. -/
def loopStep (name : String) (st : PipelineState) (fi : FrameInput) :
    Except String (PipelineState × Option SessionRecord × Option (Option Nat)) :=
  if fi.captureOk = false then .error "Error while reading video capture"
  else
    let p := pipelineStep name st fi
    .ok (p.1, p.2, p.2.map (fun _ => send_data fi.net))

/-- Running the worker loop over a sequence of iteration inputs: the first
capture failure terminates the run with the error; otherwise the emitted
payloads and the outcome of each send attempt are collected. -/
def runLoop (name : String) : PipelineState → List FrameInput →
    Except String (PipelineState × List SessionRecord × List (Option Nat))
  | st, [] => .ok (st, [], [])
  | st, fi :: rest =>
    match loopStep name st fi with
    | .error e => .error e
    | .ok (st2, rec, sent) =>
      match runLoop name st2 rest with
      | .error e => .error e
      | .ok (st3, recs, sents) => .ok (st3, rec.toList ++ recs, sent.toList ++ sents)

/-- The state-and-payload projection of a loop outcome: everything except
the network responses, which the source discards anyway. -/
def loopStateRecords (r : Except String (PipelineState × List SessionRecord × List (Option Nat))) :
    Except String (PipelineState × List SessionRecord) :=
  r.map (fun p => (p.1, p.2.1))

/-- Replace the network outcome of an iteration input, leaving every other
component unchanged. -/
def withNet (net : Except String Nat) (fi : FrameInput) : FrameInput :=
  { fi with net := net }

/-! ## Control surface: `Pipeline.start` / `Pipeline.stop` / `_is_running` -/

/-- The concurrency-facing fields of `Pipeline`: the session state shared
with the worker, the `threading.Event` stop flag, and the spawned worker
threads (newest first, each entry an is-alive flag; the source keeps only
the newest handle in `self._thread`, so `is_running` looks at the head). -/
structure ThreadModel where
  sess : PipelineState
  stop_event : Bool
  threads : List Bool
deriving DecidableEq

/-- The control state right after `Pipeline.__init__`: no worker yet,
stop flag clear. -/
def initThreadModel : ThreadModel := ⟨initPipeline, false, []⟩

/-- Embedding of `Pipeline._is_running` (main.py, lines 195-203):
whether the current thread handle exists and is alive. -/
def is_running (s : ThreadModel) : Bool :=
  s.threads.headD false

/-- Embedding of `Pipeline.start` (main.py, lines 205-219): when no worker
is running, clear the stop event, spawn a new worker loop and return true;
otherwise do nothing and return false. -/
def start (s : ThreadModel) : ThreadModel × Bool :=
  if is_running s then (s, false)
  else ({ s with stop_event := false, threads := true :: s.threads }, true)

/-- Embedding of `Pipeline.stop` (main.py, lines 221-235): set the stop
event and join the current worker, which observes the event at its next
poll and exits; always returns true.  Joining is modelled as succeeding
within the bound, the case the session-state claims are about. -/
def stop (s : ThreadModel) : ThreadModel × Bool :=
  let th : List Bool :=
    match s.threads with
    | [] => []
    | _ :: t => false :: t
  ({ s with stop_event := true, threads := th }, true)

/-- A sample demographics result used by concrete scenarios. -/
def demoSample : Demo := ⟨"Male", "young", "21-24", 45/2⟩

/-- Iteration input: person at 1 m with a matched face, clock 5. -/
def actFW : FrameInput := ⟨true, some 1, some demoSample, 5, .ok 200⟩

/-- Iteration input: nobody in frame, clock 30. -/
def midFW : FrameInput := ⟨true, none, none, 30, .ok 200⟩

/-- Iteration input: person at 2 m, clock 65. -/
def deactFW : FrameInput := ⟨true, some 2, none, 65, .ok 200⟩

/-- Iteration input whose frame read fails. -/
def badFW : FrameInput := ⟨false, none, none, 0, .ok 200⟩

/-- Control-surface state after a run that activated a session, with the
worker still alive and the stop flag clear. -/
def leakedModel : ThreadModel :=
  ⟨(runPipeline "s" initPipeline [actFW]).1, false, [true]⟩

/-! ## Theorems -/

/-- C10: the age-bucket mapping does not cut the age axis the way the
bucket names suggest: every range string whose parsed lower bound lies in
[30, 40) falls through to the final `else` and maps to "senior", and the
range "60-100" (lower bound exactly 60) maps to "adult", because the
source checks `lo < 18`, `18 <= lo < 30`, `40 <= lo <= 60` in order. -/
theorem age_bucket_boundaries :
    (∀ (s : List Char) (lo : Nat), pyContainsDash s = true →
        parseDigits ((pySplitDash s).headD []) = lo →
        30 ≤ lo → lo < 40 → map_age_bucket s = "senior") ∧
    map_age_bucket "60-100".toList = "adult" ∧
    map_age_bucket "33-43".toList = "senior" := by
  refine ⟨?_, by decide, by decide⟩
  intro s lo hdash hparse h30 h40
  simp only [map_age_bucket, hdash, if_true, hparse]
  rw [if_neg (by omega), if_neg (by omega), if_neg (by omega)]

/-- Witness for C10 at the concrete range "33-43" (lower bound 33). -/
theorem age_bucket_boundaries_witness :
    pyContainsDash "33-43".toList = true ∧
    map_age_bucket "33-43".toList = "senior" :=
  ⟨by decide,
   age_bucket_boundaries.1 "33-43".toList 33 (by decide) (by decide)
     (by decide) (by decide)⟩

/-- Rejecting a candidate leaves the scan state untouched: in the source,
`dist_face`, `min_dist` and `max_conf` are assigned only under the test. -/
theorem scanStep_of_rejected {nose : ℚ × ℚ} {st : ScanState} {f : Face}
    (h : beats nose st f = false) : scanStep nose st f = st := by
  simp [scanStep, h]

/-- Once the scan holds a best face, it holds one forever. -/
theorem scanFoldl_isSome (nose : ℚ × ℚ) (l : List Face) :
    ∀ st : ScanState, st.dist_face.isSome = true →
      (l.foldl (scanStep nose) st).dist_face.isSome = true := by
  induction l with
  | nil => intro st h; exact h
  | cons f rest ih =>
    intro st h
    refine ih _ ?_
    unfold scanStep
    split
    · rfl
    · exact h

/-- A scan in which every candidate fails the test at its position never
moves from its starting state. -/
theorem scanFoldl_of_all_rejected (nose : ℚ × ℚ) (l : List Face) :
    ∀ st : ScanState,
      (∀ pre f suf, l = pre ++ f :: suf →
        beats nose (pre.foldl (scanStep nose) st) f = false) →
      l.foldl (scanStep nose) st = st := by
  induction l with
  | nil => intro st _; rfl
  | cons g rest ih =>
    intro st h
    have hg : beats nose st g = false := h [] g rest rfl
    have hstep : scanStep nose st g = st := scanStep_of_rejected hg
    simp only [List.foldl_cons, hstep]
    refine ih st ?_
    intro pre f suf hpre
    have := h (g :: pre) f suf (by rw [hpre]; rfl)
    simpa [hstep] using this

/-- C4: a candidate replaces the running best only when it is both strictly
closer to the reference than the running best distance (initially
infinite) and strictly more confident than the running best confidence
(initially 0); and the selector returns `None` exactly when the list is
empty or no candidate ever passes that conjunctive test against the
running state at its position. -/
theorem selector_conjunctive_rule (nose : ℚ × ℚ) :
    (∀ (st : ScanState) (f : Face), scanStep nose st f ≠ st →
        (∀ m, st.min_dist = some m → distSq nose f < m) ∧
        st.max_conf < f.conf) ∧
    (∀ faces : List Face, selectFace nose faces = none ↔
        (faces = [] ∨ ∀ pre f suf, faces = pre ++ f :: suf →
            beats nose (scanFaces nose pre) f = false)) := by
  constructor
  · intro st f hne
    cases hb : beats nose st f with
    | false => exact absurd (scanStep_of_rejected hb) hne
    | true =>
      unfold beats at hb
      rw [Bool.and_eq_true] at hb
      obtain ⟨hb1, hb2⟩ := hb
      refine ⟨?_, by simpa using hb2⟩
      intro m hm
      rw [hm] at hb1
      simpa using hb1
  · intro faces
    constructor
    · intro hnone
      refine Or.inr ?_
      intro pre f suf heq
      by_contra hb
      rw [Bool.not_eq_false] at hb
      rw [scanFaces] at hb
      unfold selectFace scanFaces at hnone
      rw [heq, List.foldl_append, List.foldl_cons] at hnone
      have hsome : (scanStep nose (List.foldl (scanStep nose) initScan pre) f).dist_face.isSome
          = true := by
        simp [scanStep, hb]
      have hkeep := scanFoldl_isSome nose suf _ hsome
      rw [hnone] at hkeep
      simp at hkeep
    · intro h
      rcases h with rfl | hall
      · rfl
      · unfold selectFace scanFaces
        rw [scanFoldl_of_all_rejected nose faces initScan
          (by intro pre f suf hpre; exact hall pre f suf hpre)]
        rfl

/-- Witness for C4: the empty candidate list yields `None`, and from a
fresh scan state any candidate with positive confidence would replace the
(absent) running best. -/
theorem selector_conjunctive_rule_witness :
    selectFace (0, 0) ([] : List Face) = none ∧ initScan.max_conf < faceNear95.conf :=
  ⟨((selector_conjunctive_rule (0, 0)).2 []).mpr (Or.inl rfl),
   ((selector_conjunctive_rule (0, 0)).1 initScan faceNear95 (by
      intro hcontra
      have : (scanStep (0, 0) initScan faceNear95).dist_face = initScan.dist_face := by
        rw [hcontra]
      norm_num [scanStep, beats, initScan, faceNear95, distSq] at this
      exact Option.noConfusion this)).2⟩

/-- C5, counterexample: with candidates scanned in the order
(conf 0.95, dist 50) then (conf 0.9, dist 10), the scan accepts the first
candidate (anything beats the infinite initial distance and zero initial
confidence), rejects the second (not more confident), and the source then
returns the running best — the first candidate — not `None`. -/
theorem selector_order_cex :
    selectFace (0, 0) [faceFar95, faceNear90] = some faceFar95 ∧
    selectFace (0, 0) [faceFar95, faceNear90] ≠ none := by
  have h1 : selectFace (0, 0) [faceFar95, faceNear90] = some faceFar95 := by
    norm_num [selectFace, scanFaces, scanStep, beats, distSq, initScan,
      faceFar95, faceNear90]
  exact ⟨h1, by rw [h1]; exact Option.some_ne_none _⟩

/-- C5 as amended: the first scenario returns the first candidate (the
running best), not `None`; the second scenario returns the second
candidate, as claimed. -/
theorem selector_order_amended :
    selectFace (0, 0) [faceFar95, faceNear90] = some faceFar95 ∧
    selectFace (0, 0) [faceFar90, faceNear95] = some faceNear95 := by
  constructor
  · norm_num [selectFace, scanFaces, scanStep, beats, distSq, initScan,
      faceFar95, faceNear90]
  · norm_num [selectFace, scanFaces, scanStep, beats, distSq, initScan,
      faceFar90, faceNear95]

/-- C1: per-frame transition behavior of the loop (main.py, lines
108-122).  From Idle, a presence sample within the 1.5 m threshold
activates exactly when a demographics result is matched; without a match
the state stays Idle.  From Active, a presence sample beyond the threshold
deactivates.  A frame with no presence sample changes nothing. -/
theorem session_transitions (name : String) (st : PipelineState) (fi : FrameInput) :
    (∀ d info, st.activated = false → fi.presence = some d →
        d ≤ activation_distance → fi.demo = some info →
        (pipelineStep name st fi).1.activated = true) ∧
    (∀ d, st.activated = false → fi.presence = some d →
        d ≤ activation_distance → fi.demo = none →
        (pipelineStep name st fi).1.activated = false) ∧
    (∀ d, st.activated = true → fi.presence = some d →
        activation_distance < d →
        (pipelineStep name st fi).1.activated = false) ∧
    (fi.presence = none → (pipelineStep name st fi).1 = st) := by
  refine ⟨?_, ?_, ?_, ?_⟩
  · intro d info hA hp hle hdemo
    simp [pipelineStep, hp, hle, hA, hdemo]
  · intro d hA hp hle hdemo
    simp [pipelineStep, hp, hle, hA, hdemo]
  · intro d hA hp hgt
    have hnle : ¬(d ≤ activation_distance) := not_le.mpr hgt
    simp [pipelineStep, hp, hA, hnle, hgt]
  · intro hp
    simp [pipelineStep, hp]

/-- Witness for C1: a fresh pipeline activates on a frame with a person at
1 m and a matched face. -/
theorem session_transitions_witness :
    (pipelineStep "s" initPipeline actFW).1.activated = true :=
  (session_transitions "s" initPipeline actFW).1 1 demoSample rfl rfl
    (by norm_num [activation_distance]) rfl

/-- The step preserves the invariant that an Active pipeline holds a cached
demographics result: activation overwrites `human_info` with the matched
result in the same branch that raises the flag. -/
theorem step_holds_invariant (name : String) (st : PipelineState) (fi : FrameInput)
    (h : st.activated = true → st.human_info.isSome = true) :
    (pipelineStep name st fi).1.activated = true →
      (pipelineStep name st fi).1.human_info.isSome = true := by
  cases hp : fi.presence with
  | none => simpa [pipelineStep, hp] using h
  | some d =>
    by_cases h1 : d ≤ activation_distance ∧ st.activated = false
    · cases hd : fi.demo with
      | none => simp [pipelineStep, hp, h1, hd, h1.2]
      | some info => simp [pipelineStep, hp, h1, hd]
    · by_cases h2 : activation_distance < d ∧ st.activated = true
      · simp [pipelineStep, hp, h1, h2]
      · simpa [pipelineStep, hp, h1, h2] using h

/-- A session payload is emitted only by the deactivation branch, and its
demographics part is the cached `human_info` of the Active state. -/
theorem step_record_source (name : String) (st : PipelineState) (fi : FrameInput)
    (r : SessionRecord) :
    (pipelineStep name st fi).2 = some r → st.activated = true ∧ r.demo = st.human_info := by
  cases hp : fi.presence with
  | none => simp [pipelineStep, hp]
  | some d =>
    by_cases h1 : d ≤ activation_distance ∧ st.activated = false
    · cases hd : fi.demo with
      | none => simp [pipelineStep, hp, h1, hd]
      | some info => simp [pipelineStep, hp, h1, hd]
    · by_cases h2 : activation_distance < d ∧ st.activated = true
      · intro hr
        simp only [pipelineStep, hp] at hr
        rw [if_neg h1, if_pos h2] at hr
        simp only [Option.some.injEq] at hr
        exact ⟨h2.2, by rw [← hr]⟩
      · simp [pipelineStep, hp, h1, h2]

/-- Invariant-carrying induction for the whole run: the event trace
alternates from the starting flag, and every emitted payload carries a
demographics result. -/
theorem run_alternates_all (name : String) (fis : List FrameInput) :
    ∀ st : PipelineState, (st.activated = true → st.human_info.isSome = true) →
      alternatesFrom st.activated (runEvents name st fis) = true ∧
      ((runPipeline name st fis).2.all fun r => r.demo.isSome) = true := by
  induction fis with
  | nil => intro st _; exact ⟨by cases st.activated <;> rfl, rfl⟩
  | cons fi rest ih =>
    intro st h
    have hinv := step_holds_invariant name st fi h
    obtain ⟨ih1, ih2⟩ := ih (pipelineStep name st fi).1 hinv
    constructor
    · cases hA : st.activated <;>
        cases hB : (pipelineStep name st fi).1.activated <;>
        rw [hB] at ih1 <;>
        simpa [runEvents, hA, hB, alternatesFrom] using ih1
    · rcases hp2 : (pipelineStep name st fi).2 with _ | r
      · simpa [runPipeline, hp2] using ih2
      · obtain ⟨hact, hdemo⟩ := step_record_source name st fi r hp2
        have hr : r.demo.isSome = true := by rw [hdemo]; exact h hact
        simp [runPipeline, hp2, hr, ih2]

/-- C2: from a freshly constructed pipeline, the activation/deactivation
event trace of any frame sequence alternates — never two activations
without an intervening deactivation — and every session payload ever
constructed carries a demographics result. -/
theorem single_active_session (name : String) (fis : List FrameInput) :
    alternatesFrom false (runEvents name initPipeline fis) = true ∧
    ((runPipeline name initPipeline fis).2.all fun r => r.demo.isSome) = true := by
  have h := run_alternates_all name fis initPipeline
    (by intro hc; simp [initPipeline] at hc)
  simpa [initPipeline] using h

/-- While Active, a frame that does not satisfy the deactivation condition
leaves the whole state untouched and emits nothing. -/
theorem step_active_hold (name : String) (st : PipelineState) (fi : FrameInput)
    (hact : st.activated = true)
    (hfi : ∀ d, fi.presence = some d → d ≤ activation_distance) :
    pipelineStep name st fi = (st, none) := by
  cases hp : fi.presence with
  | none => simp [pipelineStep, hp]
  | some d =>
    have hnlt : ¬(activation_distance < d) := not_lt.mpr (hfi d hp)
    simp [pipelineStep, hp, hact, hnlt]

/-- While Active, a whole stretch of non-deactivating frames holds the
state and emits nothing. -/
theorem run_active_hold (name : String) (mid : List FrameInput) :
    ∀ st : PipelineState, st.activated = true →
      (∀ fi ∈ mid, ∀ d, fi.presence = some d → d ≤ activation_distance) →
      runPipeline name st mid = (st, []) := by
  induction mid with
  | nil => intro st _ _; rfl
  | cons fi rest ih =>
    intro st hact hmid
    have hstep := step_active_hold name st fi hact (hmid fi (by simp))
    have hrest := ih st hact (fun g hg => hmid g (by simp [hg]))
    simp [runPipeline, hstep, hrest]

/-- Running a concatenation threads the state through the first part and
concatenates the emitted payloads. -/
theorem runPipeline_append (name : String) (l1 l2 : List FrameInput) :
    ∀ st : PipelineState,
      runPipeline name st (l1 ++ l2) =
        ((runPipeline name (runPipeline name st l1).1 l2).1,
         (runPipeline name st l1).2 ++ (runPipeline name (runPipeline name st l1).1 l2).2) := by
  induction l1 with
  | nil => intro st; simp [runPipeline]
  | cons fi rest ih => intro st; simp [runPipeline, ih]

/-- C3: a completed session — activation at the clock value of the
activation frame, deactivation at the clock value of the deactivation
frame — emits exactly one payload; its dwell is the difference of the two
clock values divided by 60 and is nonnegative under a monotone clock, and
its demographics are the ones matched on the activation frame, whatever
the in-between frames carried. -/
theorem session_record_exact (name : String) (st : PipelineState)
    (d1 d2 : ℚ) (info : Demo) (actF deactF : FrameInput) (mid : List FrameInput)
    (hidle : st.activated = false)
    (h1 : actF.presence = some d1) (hle : d1 ≤ activation_distance)
    (hdemo : actF.demo = some info)
    (hmid : ∀ fi ∈ mid, ∀ d, fi.presence = some d → d ≤ activation_distance)
    (h2 : deactF.presence = some d2) (hgt : activation_distance < d2)
    (hmono : actF.now ≤ deactF.now) :
    (runPipeline name st (actF :: (mid ++ [deactF]))).2 =
      [⟨some info, name, some actF.now, (deactF.now - actF.now) / 60⟩] ∧
    0 ≤ (deactF.now - actF.now) / 60 := by
  have hstep1 : pipelineStep name st actF =
      (⟨true, some info, actF.now, st.finished_at, some actF.now⟩, none) := by
    simp [pipelineStep, h1, hle, hidle, hdemo]
  have hmidrun : runPipeline name ⟨true, some info, actF.now, st.finished_at, some actF.now⟩ mid
      = (⟨true, some info, actF.now, st.finished_at, some actF.now⟩, []) :=
    run_active_hold name mid _ rfl hmid
  have hnot1 : ¬(d2 ≤ activation_distance ∧
      (⟨true, some info, actF.now, st.finished_at, some actF.now⟩ : PipelineState).activated
        = false) := by
    simp
  have hlast : pipelineStep name ⟨true, some info, actF.now, st.finished_at, some actF.now⟩ deactF
      = (⟨false, some info, actF.now, deactF.now, some actF.now⟩,
         some ⟨some info, name, some actF.now, (deactF.now - actF.now) / 60⟩) := by
    simp [pipelineStep, h2, hgt]
  constructor
  · rw [show actF :: (mid ++ [deactF]) = [actF] ++ (mid ++ [deactF]) from rfl,
      runPipeline_append, runPipeline_append]
    simp [runPipeline, hstep1, hmidrun, hlast]
  · have : (0:ℚ) ≤ deactF.now - actF.now := by linarith
    positivity

/-- Witness for C3: activation at clock 5, an empty frame in between,
deactivation at clock 65 — one payload with dwell of one minute. -/
theorem session_record_exact_witness :
    (runPipeline "s" initPipeline (actFW :: ([midFW] ++ [deactFW]))).2 =
      [⟨some demoSample, "s", some actFW.now, (deactFW.now - actFW.now) / 60⟩] ∧
    0 ≤ (deactFW.now - actFW.now) / 60 :=
  session_record_exact "s" initPipeline 1 2 demoSample actFW deactFW [midFW]
    rfl rfl (by norm_num [activation_distance]) rfl
    (by intro fi hfi d hd
        rw [List.mem_singleton] at hfi
        rw [hfi] at hd
        exact Option.noConfusion hd)
    rfl (by norm_num [activation_distance]) (by norm_num [actFW, deactFW])

/-- The state machine never looks at the network outcome of an iteration:
`pipelineStep` reads only the presence sample, the demographics result and
the clock. -/
theorem pipelineStep_net_irrelevant (name : String) (st : PipelineState)
    (net : Except String Nat) (fi : FrameInput) :
    pipelineStep name st (withNet net fi) = pipelineStep name st fi := by
  cases fi
  rfl

/-- C7: a failed frame read terminates the whole run with the uncaught
`RuntimeError`, wherever it occurs and whatever follows it; a raising
outbound POST is absorbed by `send_data` and returns `None`; the network
outcomes have no effect on the run verdict, the final state or the emitted
payloads; and there is exactly one send attempt per emitted payload — no
retries. -/
theorem failure_policy (name : String) :
    (∀ (st : PipelineState) (pre : List FrameInput) (fi : FrameInput)
        (suf : List FrameInput), fi.captureOk = false →
        runLoop name st (pre ++ fi :: suf) = .error "Error while reading video capture") ∧
    (∀ e : String, send_data (.error e) = none) ∧
    (∀ (st : PipelineState) (fis : List FrameInput) (net : Except String Nat),
        loopStateRecords (runLoop name st (fis.map (withNet net))) =
        loopStateRecords (runLoop name st fis)) ∧
    (∀ (st : PipelineState) (fis : List FrameInput)
        (r : PipelineState × List SessionRecord × List (Option Nat)),
        runLoop name st fis = .ok r → r.2.2.length = r.2.1.length) := by
  refine ⟨?_, ?_, ?_, ?_⟩
  · intro st pre
    induction pre generalizing st with
    | nil =>
      intro fi suf hc
      simp [runLoop, loopStep, hc]
    | cons g pre ih =>
      intro fi suf hc
      cases hg : g.captureOk with
      | false => simp [runLoop, loopStep, hg]
      | true =>
        rw [List.cons_append, runLoop]
        simp only [loopStep, hg, Bool.true_eq_false, if_neg, reduceIte]
        rw [ih _ fi suf hc]
  · intro e
    rfl
  · intro st fis net
    induction fis generalizing st with
    | nil => rfl
    | cons fi rest ih =>
      obtain ⟨c, p, dm, nw, nt⟩ := fi
      cases c with
      | false => simp [runLoop, loopStep, withNet]
      | true =>
        have hstep : pipelineStep name st ⟨true, p, dm, nw, net⟩
            = pipelineStep name st ⟨true, p, dm, nw, nt⟩ := rfl
        have ihx := ih (pipelineStep name st ⟨true, p, dm, nw, nt⟩).1
        rw [List.map_cons, runLoop, runLoop]
        simp only [loopStep, withNet, Bool.true_eq_false, reduceIte, hstep]
        rcases hr : runLoop name (pipelineStep name st ⟨true, p, dm, nw, nt⟩).1 rest
          with e | ⟨st3, recs, sents⟩ <;>
          rcases hm : runLoop name
              (pipelineStep name st ⟨true, p, dm, nw, nt⟩).1 (rest.map (withNet net))
            with e2 | ⟨st4, recs2, sents2⟩ <;>
          rw [hr, hm] at ihx
        · simp only [loopStateRecords, Except.map, Except.error.injEq] at ihx
          simp [loopStateRecords, ihx]
        · simp [loopStateRecords, Except.map] at ihx
        · simp [loopStateRecords, Except.map] at ihx
        · simp only [loopStateRecords, Except.map, Except.ok.injEq, Prod.mk.injEq] at ihx
          obtain ⟨hA, hB⟩ := ihx
          simp [loopStateRecords, Except.map, hA, hB]
  · intro st fis
    induction fis generalizing st with
    | nil =>
      intro r hr
      simp only [runLoop, Except.ok.injEq] at hr
      rw [← hr]
      rfl
    | cons fi rest ih =>
      intro r hr
      cases hc : fi.captureOk with
      | false => simp [runLoop, loopStep, hc] at hr
      | true =>
        rw [runLoop] at hr
        simp only [loopStep, hc, Bool.true_eq_false, reduceIte] at hr
        rcases hrec : runLoop name (pipelineStep name st fi).1 rest with e | ⟨st3, recs, sents⟩
        · rw [hrec] at hr
          simp at hr
        · rw [hrec] at hr
          simp only [Except.ok.injEq] at hr
          have hlen := ih _ (st3, recs, sents) hrec
          rw [← hr]
          rcases hp2 : (pipelineStep name st fi).2 with _ | rec <;>
            simp [hp2, hlen]

/-- Witness for C7: a run whose only frame fails to read terminates with
the capture error, and a raising POST yields `None`. -/
theorem failure_policy_witness :
    runLoop "s" initPipeline [badFW] = .error "Error while reading video capture" ∧
    send_data (.error "connection refused") = none :=
  ⟨(failure_policy "s").1 initPipeline [] badFW [] rfl,
   (failure_policy "s").2.1 "connection refused"⟩

/-- When a worker is alive `start` does nothing and reports false. -/
theorem start_running {s : ThreadModel} (h : is_running s = true) :
    start s = (s, false) := by
  rw [start, if_pos h]

/-- When no worker is alive `start` clears the stop event, spawns a worker
and reports true. -/
theorem start_not_running {s : ThreadModel} (h : is_running s = false) :
    start s = ({ s with stop_event := false, threads := true :: s.threads }, true) := by
  rw [start, if_neg]
  rw [h]
  simp

/-- A freshly spawned worker makes the model running. -/
theorem is_running_spawned (s : ThreadModel) :
    is_running { s with stop_event := false, threads := true :: s.threads } = true := rfl

/-- C8: `start` is idempotent — it does nothing and returns false while a
worker is alive; otherwise it clears the stop event, spawns one worker and
returns true; a second consecutive `start` always returns false, and from
a state with no live worker two consecutive calls leave exactly one live
worker. -/
theorem start_idempotent :
    (∀ s : ThreadModel, is_running s = true → start s = (s, false)) ∧
    (∀ s : ThreadModel, is_running s = false →
        (start s).2 = true ∧ (start s).1.stop_event = false ∧
        (start s).1.threads = true :: s.threads) ∧
    (∀ s : ThreadModel, (start (start s).1).2 = false) ∧
    (∀ s : ThreadModel, (∀ b ∈ s.threads, b = false) →
        (start s).2 = true ∧ (start (start s).1).2 = false ∧
        (start (start s).1).1.threads.count true = 1) := by
  have hdead : ∀ s : ThreadModel, (∀ b ∈ s.threads, b = false) → is_running s = false := by
    intro s hall
    cases hth : s.threads with
    | nil => rw [is_running, hth]; rfl
    | cons b t =>
      rw [is_running, hth]
      simpa using hall b (by rw [hth]; exact List.mem_cons_self b t)
  refine ⟨?_, ?_, ?_, ?_⟩
  · intro s h
    exact start_running h
  · intro s h
    rw [start_not_running h]
    exact ⟨rfl, rfl, rfl⟩
  · intro s
    cases h : is_running s with
    | true => rw [start_running h, start_running h]
    | false => rw [start_not_running h, start_running (is_running_spawned s)]
  · intro s hall
    have hrun := hdead s hall
    have hcount : s.threads.count true = 0 := by
      rw [List.count_eq_zero]
      intro hmem
      simpa using hall true hmem
    rw [start_not_running hrun, start_running (is_running_spawned s)]
    refine ⟨rfl, rfl, ?_⟩
    simp [List.count_cons, hcount]

/-- Witness for C8 from the post-construction control state. -/
theorem start_idempotent_witness :
    (start initThreadModel).2 = true ∧
    (start (start initThreadModel).1).2 = false ∧
    (start (start initThreadModel).1).1.threads.count true = 1 :=
  start_idempotent.2.2.2 initThreadModel
    (by intro b hb; simp [initThreadModel] at hb)

/-- C9, counterexample: one frame activates a session; after `stop` then
`start`, the relaunched worker observes `activated = true` and the cached
demographics of the previous run, while the post-construction values are
`false` and `none` — session state leaks across the restart. -/
theorem stop_start_leak_cex :
    (start (stop leakedModel).1).1.sess.activated = true ∧
    (start (stop leakedModel).1).1.sess.human_info = some demoSample ∧
    initPipeline.activated = false ∧ initPipeline.human_info = none := by
  have hsess : (runPipeline "s" initPipeline [actFW]).1 =
      ⟨true, some demoSample, 5, 0, some 5⟩ := by
    norm_num [runPipeline, pipelineStep, actFW, initPipeline, activation_distance]
  refine ⟨?_, ?_, rfl, rfl⟩ <;>
    simp [start, stop, is_running, leakedModel, hsess]

/-- C9 as amended: `stop` followed by `start` relaunches a worker with the
stop flag cleared, but carries the session state over verbatim — the
Active/Idle flag, cached demographics and both timestamps of the previous
run are all still in place, none reset to its post-construction value. -/
theorem stop_start_carries_state (m : ThreadModel) :
    (stop m).1.sess = m.sess ∧
    (start (stop m).1).1.sess = m.sess ∧
    is_running (start (stop m).1).1 = true ∧
    (start (stop m).1).1.stop_event = false := by
  rcases m with ⟨sess, ev, threads⟩
  cases threads with
  | nil => simp [stop, start, is_running]
  | cons b t => simp [stop, start, is_running]

/-- C6, counterexample: twelve centers drifting right by 0.1 px per frame.
Every consecutive displacement is 0.1 < 0.8 (the last five of them are
spelled out below), so under the claim the tracker would return true at the
10th update and onward; the code returns false at the 10th and 11th
updates (window not yet full at the 10th; anchored displacements from the
first center keeping the mean at exactly 0.8 at the 11th) and true only at
the 12th. -/
theorem tracker_timing_cex :
    trackerResults driftCenters =
      [false, false, false, false, false, false,
       false, false, false, false, false, true] ∧
    |(driftCenters.getD 5 (0, 0)).1 - (driftCenters.getD 4 (0, 0)).1| = 1/10 ∧
    |(driftCenters.getD 6 (0, 0)).1 - (driftCenters.getD 5 (0, 0)).1| = 1/10 ∧
    |(driftCenters.getD 7 (0, 0)).1 - (driftCenters.getD 6 (0, 0)).1| = 1/10 ∧
    |(driftCenters.getD 8 (0, 0)).1 - (driftCenters.getD 7 (0, 0)).1| = 1/10 ∧
    |(driftCenters.getD 9 (0, 0)).1 - (driftCenters.getD 8 (0, 0)).1| = 1/10 ∧
    ((1:ℚ)/10 < 4/5) := by
  refine ⟨?_, by norm_num [driftCenters], by norm_num [driftCenters],
    by norm_num [driftCenters], by norm_num [driftCenters],
    by norm_num [driftCenters], by norm_num⟩
  norm_num [trackerResults, trackerRun, analyze_speed, dequeAppend10, npMean,
    initTracker, driftCenters, abs_of_nonneg]

/-- With a reference center in place and a full window after the append,
the update takes the mean branch. -/
theorem analyze_speed_some_full (st : TrackerState) (lc c : ℚ × ℚ)
    (h : st.last_center = some lc)
    (hfull : 10 ≤ (dequeAppend10 st.speed_history |c.1 - lc.1|).length) :
    analyze_speed st c =
      (if npMean ((dequeAppend10 st.speed_history |c.1 - lc.1|).drop
            ((dequeAppend10 st.speed_history |c.1 - lc.1|).length - 5)) < 4/5 then
         (⟨dequeAppend10 st.speed_history |c.1 - lc.1|, some c, true⟩, true)
       else (⟨dequeAppend10 st.speed_history |c.1 - lc.1|, some c, false⟩, false)) := by
  simp only [analyze_speed, h]
  rw [if_pos hfull]

/-- With a reference center in place but a not-yet-full window, the update
only appends to the window, keeps the reference, and returns false. -/
theorem analyze_speed_some_notfull (st : TrackerState) (lc c : ℚ × ℚ)
    (h : st.last_center = some lc)
    (hpart : ¬10 ≤ (dequeAppend10 st.speed_history |c.1 - lc.1|).length) :
    analyze_speed st c =
      ({ st with speed_history := dequeAppend10 st.speed_history |c.1 - lc.1| }, false) := by
  simp only [analyze_speed, h]
  rw [if_neg hpart]

/-- In the mean branch the return value is exactly the comparison of the
mean of the last five window entries against 0.8. -/
theorem analyze_speed_snd_full (st : TrackerState) (lc c : ℚ × ℚ)
    (h : st.last_center = some lc)
    (hfull : 10 ≤ (dequeAppend10 st.speed_history |c.1 - lc.1|).length) :
    (analyze_speed st c).2 =
      decide (npMean ((dequeAppend10 st.speed_history |c.1 - lc.1|).drop
        ((dequeAppend10 st.speed_history |c.1 - lc.1|).length - 5)) < 4/5) := by
  rw [analyze_speed_some_full st lc c h hfull]
  by_cases hb : npMean ((dequeAppend10 st.speed_history |c.1 - lc.1|).drop
      ((dequeAppend10 st.speed_history |c.1 - lc.1|).length - 5)) < 4/5
  · rw [if_pos hb]; simp [hb]
  · rw [if_neg hb]; simp [hb]

/-- In the mean branch the new state holds the appended window and the
current center, whichever way the comparison goes. -/
theorem analyze_speed_fst_full (st : TrackerState) (lc c : ℚ × ℚ)
    (h : st.last_center = some lc)
    (hfull : 10 ≤ (dequeAppend10 st.speed_history |c.1 - lc.1|).length) :
    (analyze_speed st c).1.last_center = some c ∧
    (analyze_speed st c).1.speed_history = dequeAppend10 st.speed_history |c.1 - lc.1| := by
  rw [analyze_speed_some_full st lc c h hfull]
  split <;> exact ⟨rfl, rfl⟩

/-- Running a concatenation of center sequences threads the state through
the first part and concatenates the outputs. -/
theorem trackerRun_append (l1 l2 : List (ℚ × ℚ)) :
    ∀ st, trackerRun st (l1 ++ l2)
      = ((trackerRun (trackerRun st l1).1 l2).1,
         (trackerRun st l1).2 ++ (trackerRun (trackerRun st l1).1 l2).2) := by
  induction l1 with
  | nil => intro st; simp [trackerRun]
  | cons c rest ih => intro st; simp [trackerRun, ih]

/-- One return value per update. -/
theorem trackerRun_length (cs : List (ℚ × ℚ)) :
    ∀ st, (trackerRun st cs).2.length = cs.length := by
  induction cs with
  | nil => intro st; rfl
  | cons c rest ih => intro st; simp [trackerRun, ih]

/-- The return value of update `i` is the step function applied to the
state reached after the first `i` updates. -/
theorem trackerRun_result_at (cs : List (ℚ × ℚ)) :
    ∀ (st : TrackerState) (i : ℕ), i < cs.length →
      (trackerRun st cs).2.getD i false
        = (analyze_speed (trackerRun st (cs.take i)).1 (cs.getD i (0, 0))).2 := by
  induction cs with
  | nil => intro st i h; exact absurd h (by simp)
  | cons c rest ih =>
    intro st i h
    cases i with
    | zero => simp [trackerRun]
    | succ i =>
      have hlt : i < rest.length := by
        simp only [List.length_cons] at h; omega
      simp only [trackerRun, List.getD_cons_succ, List.take_succ_cons]
      rw [ih (analyze_speed st c).1 i hlt]

/-- Appending to the deque commutes with taking the last ten entries. -/
theorem dequeAppend10_lastN (l : List ℚ) (x : ℚ) :
    dequeAppend10 (lastN 10 l) x = lastN 10 (l ++ [x]) := by
  by_cases h : l.length ≤ 9
  · have h0 : lastN 10 l = l := by
      unfold lastN
      rw [show l.length - 10 = 0 by omega, List.drop_zero]
    rw [h0]
    unfold dequeAppend10 lastN
    rw [if_neg (by simp only [List.length_append, List.length_cons, List.length_nil]; omega)]
    rw [show (l ++ [x]).length - 10 = 0 by
      simp only [List.length_append, List.length_cons, List.length_nil]; omega]
    rw [List.drop_zero]
  · have hlen : (lastN 10 l).length = 10 := by
      unfold lastN; rw [List.length_drop]; omega
    unfold dequeAppend10
    rw [if_pos (by
      simp only [List.length_append, hlen, List.length_cons, List.length_nil]; omega)]
    rw [show (lastN 10 l ++ [x]).length - 10 = 1 by
      simp only [List.length_append, hlen, List.length_cons, List.length_nil]]
    unfold lastN
    rw [List.drop_append_of_le_length (by rw [List.length_drop]; omega)]
    rw [show (l ++ [x]).length - 10 = l.length - 9 by
      simp only [List.length_append, List.length_cons, List.length_nil]; omega]
    rw [List.drop_append_of_le_length (by omega)]
    rw [List.drop_drop]
    rw [show l.length - 10 + 1 = l.length - 9 by omega]

/-- One more update appends one more displacement sample. -/
theorem sampleList_succ (cs : List (ℚ × ℚ)) (n : ℕ) (hn : 1 ≤ n) :
    sampleList cs (n + 1) = sampleList cs n ++ [specSample cs n] := by
  unfold sampleList
  rw [List.range_succ]
  rw [List.drop_append_of_le_length (by rw [List.length_range]; omega)]
  rw [List.map_append]
  rfl

theorem sampleList_length (cs : List (ℚ × ℚ)) (n : ℕ) :
    (sampleList cs n).length = n - 1 := by
  simp [sampleList]

theorem lastN_length (k : ℕ) (l : List ℚ) :
    (lastN k l).length = l.length - (l.length - k) := by
  simp [lastN]

/-- After `n ≥ 1` updates on a fresh tracker, the reference center is the
first center until the window fills (update index 10) and the previous
center afterwards, and the window holds the last ten displacement
samples. -/
theorem trackerState_charac (cs : List (ℚ × ℚ)) :
    ∀ n : ℕ, 1 ≤ n → n ≤ cs.length →
      (trackerRun initTracker (cs.take n)).1.last_center
          = some (cs.getD (if n ≤ 10 then 0 else n - 1) (0, 0)) ∧
      (trackerRun initTracker (cs.take n)).1.speed_history
          = lastN 10 (sampleList cs n) := by
  intro n
  induction n with
  | zero => intro h; omega
  | succ n ih =>
    intro h1 hlen
    by_cases hn : n = 0
    · subst hn
      obtain ⟨c, rest, rfl⟩ : ∃ c rest, cs = c :: rest := by
        cases cs with
        | nil => simp at hlen
        | cons c rest => exact ⟨c, rest, rfl⟩
      refine ⟨by simp [trackerRun, analyze_speed, initTracker], ?_⟩
      simp [trackerRun, analyze_speed, initTracker, lastN, sampleList]
    · have hn1 : 1 ≤ n := by omega
      have hnlen : n < cs.length := by omega
      obtain ⟨ih1, ih2⟩ := ih hn1 (by omega)
      have htake : cs.take (n + 1) = cs.take n ++ [cs.getD n (0, 0)] := by
        rw [List.take_succ, List.getElem?_eq_getElem hnlen,
          List.getD_eq_getElem cs (0, 0) hnlen]
        rfl
      have hstate1 : (trackerRun initTracker (cs.take (n + 1))).1
          = (analyze_speed (trackerRun initTracker (cs.take n)).1 (cs.getD n (0, 0))).1 := by
        rw [htake, trackerRun_append]
        rfl
      have hdx : |(cs.getD n (0, 0)).1
          - (cs.getD (if n ≤ 10 then 0 else n - 1) (0, 0)).1| = specSample cs n := rfl
      have hhist : dequeAppend10 (trackerRun initTracker (cs.take n)).1.speed_history
          |(cs.getD n (0, 0)).1 - (cs.getD (if n ≤ 10 then 0 else n - 1) (0, 0)).1|
          = lastN 10 (sampleList cs (n + 1)) := by
        rw [ih2, hdx, dequeAppend10_lastN, ← sampleList_succ cs n hn1]
      have hhlen : (lastN 10 (sampleList cs (n + 1))).length = n - (n - 10) := by
        rw [lastN_length, sampleList_length]
        omega
      by_cases hfull : 10 ≤ n
      · have hge : 10 ≤ (dequeAppend10 (trackerRun initTracker (cs.take n)).1.speed_history
            |(cs.getD n (0, 0)).1 - (cs.getD (if n ≤ 10 then 0 else n - 1) (0, 0)).1|).length := by
          rw [hhist, hhlen]; omega
        obtain ⟨hf1, hf2⟩ := analyze_speed_fst_full _ _ _ ih1 hge
        constructor
        · rw [hstate1, hf1, if_neg (by omega)]
          rw [show n + 1 - 1 = n by omega]
        · rw [hstate1, hf2, hhist]
      · have hlt : ¬10 ≤ (dequeAppend10 (trackerRun initTracker (cs.take n)).1.speed_history
            |(cs.getD n (0, 0)).1 - (cs.getD (if n ≤ 10 then 0 else n - 1) (0, 0)).1|).length := by
          rw [hhist, hhlen]; omega
        rw [hstate1, analyze_speed_some_notfull _ _ _ ih1 hlt]
        have e1 : (if n ≤ 10 then 0 else n - 1) = 0 := if_pos (by omega)
        have e2 : (if n + 1 ≤ 10 then 0 else n + 1 - 1) = 0 := if_pos (by omega)
        constructor
        · show (trackerRun initTracker (cs.take n)).1.last_center
            = some (cs.getD (if n + 1 ≤ 10 then 0 else n + 1 - 1) (0, 0))
          rw [ih1, e1, e2]
        · exact hhist

/-- C6 as amended: the tracker returns false on each of the first TEN
updates regardless of input (the first update only records a reference,
and the window, one sample shorter than the update count, first reaches
ten samples at the eleventh update); from the eleventh update (index 10)
onward it returns true exactly when the mean of the five most recent
displacement samples is below 0.8 — where the sample of update index `i`
is the horizontal distance from center `i` to the reference center, which
is the FIRST center while `i ≤ 10` and the previous center from `i = 11`
on, the reference being advanced only once the window is full. -/
theorem tracker_amended (cs : List (ℚ × ℚ)) :
    (∀ i, i < 10 → (trackerResults cs).getD i false = false) ∧
    (∀ i, 10 ≤ i → i < cs.length →
        (trackerResults cs).getD i false = decide (recent5Mean cs i < 4/5)) := by
  constructor
  · intro i hi
    by_cases hlen : i < cs.length
    · rw [trackerResults, trackerRun_result_at cs initTracker i hlen]
      by_cases hi0 : i = 0
      · subst hi0
        rfl
      · have h1 : 1 ≤ i := by omega
        obtain ⟨hc1, hc2⟩ := trackerState_charac cs i h1 (le_of_lt hlen)
        have hhist : dequeAppend10 (trackerRun initTracker (cs.take i)).1.speed_history
            |(cs.getD i (0, 0)).1 - (cs.getD (if i ≤ 10 then 0 else i - 1) (0, 0)).1|
            = lastN 10 (sampleList cs (i + 1)) := by
          rw [hc2, show |(cs.getD i (0, 0)).1
              - (cs.getD (if i ≤ 10 then 0 else i - 1) (0, 0)).1| = specSample cs i from rfl,
            dequeAppend10_lastN, ← sampleList_succ cs i h1]
        have hnl : ¬10 ≤ (dequeAppend10 (trackerRun initTracker (cs.take i)).1.speed_history
            |(cs.getD i (0, 0)).1
              - (cs.getD (if i ≤ 10 then 0 else i - 1) (0, 0)).1|).length := by
          rw [hhist, lastN_length, sampleList_length]
          omega
        rw [analyze_speed_some_notfull _ _ _ hc1 hnl]
    · rw [trackerResults]
      exact List.getD_eq_default _ _ (by rw [trackerRun_length]; omega)
  · intro i h10 hlen
    have h1 : 1 ≤ i := by omega
    obtain ⟨hc1, hc2⟩ := trackerState_charac cs i h1 (le_of_lt hlen)
    have hhist : dequeAppend10 (trackerRun initTracker (cs.take i)).1.speed_history
        |(cs.getD i (0, 0)).1 - (cs.getD (if i ≤ 10 then 0 else i - 1) (0, 0)).1|
        = lastN 10 (sampleList cs (i + 1)) := by
      rw [hc2, show |(cs.getD i (0, 0)).1
          - (cs.getD (if i ≤ 10 then 0 else i - 1) (0, 0)).1| = specSample cs i from rfl,
        dequeAppend10_lastN, ← sampleList_succ cs i h1]
    have hge : 10 ≤ (dequeAppend10 (trackerRun initTracker (cs.take i)).1.speed_history
        |(cs.getD i (0, 0)).1
          - (cs.getD (if i ≤ 10 then 0 else i - 1) (0, 0)).1|).length := by
      rw [hhist, lastN_length, sampleList_length]
      omega
    rw [trackerResults, trackerRun_result_at cs initTracker i hlen]
    rw [analyze_speed_snd_full _ _ _ hc1 hge]
    have hdrop : (dequeAppend10 (trackerRun initTracker (cs.take i)).1.speed_history
          |(cs.getD i (0, 0)).1
            - (cs.getD (if i ≤ 10 then 0 else i - 1) (0, 0)).1|).drop
        ((dequeAppend10 (trackerRun initTracker (cs.take i)).1.speed_history
          |(cs.getD i (0, 0)).1
            - (cs.getD (if i ≤ 10 then 0 else i - 1) (0, 0)).1|).length - 5)
        = (List.range 5).map (fun k => specSample cs (i - 4 + k)) := by
      rw [hhist, lastN_length, sampleList_length]
      rw [show (i + 1 - 1) - ((i + 1 - 1) - 10) - 5 = 5 by omega]
      rw [lastN]
      rw [sampleList_length]
      rw [List.drop_drop]
      rw [sampleList]
      rw [← List.map_drop]
      rw [List.drop_drop]
      rw [show 1 + (i + 1 - 1 - 10 + 5) = i - 4 by omega]
      rw [show i + 1 = (i - 4) + 5 by omega]
      rw [List.range_add]
      rw [List.drop_append_of_le_length (by simp [List.length_range])]
      rw [show (List.range (i - 4)).drop (i - 4) = [] by
        apply List.drop_eq_nil_of_le
        rw [List.length_range]]
      rw [List.nil_append, List.map_map]
      rfl
    rw [hdrop]
    rfl

/-- Witness for the amended C6 on the drifting centers: a warm-up update
returns false, and the twelfth update returns the mean comparison. -/
theorem tracker_amended_witness :
    (trackerResults driftCenters).getD 0 false = false ∧
    (trackerResults driftCenters).getD 11 false
      = decide (recent5Mean driftCenters 11 < 4/5) :=
  ⟨(tracker_amended driftCenters).1 0 (by norm_num),
   (tracker_amended driftCenters).2 11 (by norm_num) (by norm_num [driftCenters])⟩

end MuseumAssistant
